import Mathlib

/-!
Verification of the hpc-connect resource model, launcher compiler, slurm/pbs
process handling, futures, configuration and job specification against their
Python sources.  Machine integers are modelled as `Nat`/`Int` (Python integers
are unbounded); Python functions that can raise model failure with
`Option`/`Except`.
-/

/-! ## Resource model (`src/hpc_connect/backend.py`) -/

/-- A resource tree node, `{type, count, resources}` from `backend.py`
(`additional_properties` carries no behaviour and is omitted). -/
inductive RSpec where
  | mk (rtype : String) (count : Nat) (resources : List RSpec)

/-- Entry of the resource index: `(type, count, parent_type)` as produced by
`walk_resources` (only `type`, `count` and the parent's type are consulted by
the counting operations). -/
structure Entry where
  rtype : String
  count : Nat
  parent : Option String
deriving DecidableEq

mutual
/-- `walk_resources(rspec, parent_type)`: preorder walk yielding each spec with
its parent's type. -/
def walkResources : RSpec → Option String → List Entry
  | .mk t c rs, parent => ⟨t, c, parent⟩ :: walkChildren t rs

/-- Walk of the `resources` children list of a spec of type `t`. -/
def walkChildren : String → List RSpec → List Entry
  | _, [] => []
  | t, r :: rs => walkResources r (some t) ++ walkChildren t rs
end

/-- `Backend._resource_index`: walk every top-level resource spec.  The Python
dict `type -> [(spec, parent)]` is modelled by the flat walk order list; the
per-type lists are recovered by `entriesOf` (order preserved). -/
def resourceIndex (roots : List RSpec) : List Entry :=
  (roots.map (walkResources · none)).flatten

/-- `self._resource_index.get(type, [])`. -/
def entriesOf (idx : List Entry) (t : String) : List Entry :=
  idx.filter (fun e => e.rtype = t)

/-- The `while p and p != "node"` walk-up loop inside `count_per_node`: starting
from `multiplier` and parent `p`, repeatedly multiply by the count of the FIRST
index entry of the parent type and move to that entry's parent; contribute the
multiplier when the walk reaches `"node"`, else contribute `0` (the `break`
path and the `p` falsy path).  The loop can diverge on cyclic type graphs, so
it takes fuel; `none` models divergence and never occurs for fuel larger than
the number of distinct types. -/
def climbToNode (idx : List Entry) : Nat → Nat → Option String → Option Nat
  | 0, _, _ => none
  | _ + 1, _, none => some 0
  | fuel + 1, mult, some p =>
    if p = "" then some 0
    else if p = "node" then some mult
    else
      match (entriesOf idx p).head? with
      | none => some 0
      | some e => climbToNode idx fuel (mult * e.count) e.parent

/-- `Backend.count_per_node(type, default)`: sum the walk-up contribution of
every occurrence of `type`; return the total when non-zero, else the default;
`none` models `ValueError` (no default) or a diverging walk. -/
def countPerNode (roots : List RSpec) (t : String) (default : Option Nat) : Option Nat :=
  match (entriesOf (resourceIndex roots) t).mapM
      (fun e => climbToNode (resourceIndex roots) ((resourceIndex roots).length + 1)
        e.count e.parent) with
  | none => none
  | some contribs =>
    if contribs.foldl (· + ·) 0 ≠ 0 then some (contribs.foldl (· + ·) 0) else default

/-- `Backend.count_per_socket(type, default)`: the count of the first occurrence
of `type` whose parent is `socket`, else the default (`none` models
`ValueError`). -/
def countPerSocket (roots : List RSpec) (t : String) (default : Option Nat) : Option Nat :=
  match (entriesOf (resourceIndex roots) t).find? (fun e => e.parent = some "socket") with
  | some e => some e.count
  | none => default

/-- `Backend.node_count`: sum of the top-level node counts; `none` models the
`ValueError` raised when the sum is zero. -/
def nodeCount (roots : List RSpec) : Option Nat :=
  if ((entriesOf (resourceIndex roots) "node").map Entry.count).foldl (· + ·) 0 ≠ 0 then
    some (((entriesOf (resourceIndex roots) "node").map Entry.count).foldl (· + ·) 0)
  else none

/-- `Backend.sockets_per_node`: `count_per_node("socket") or 1`, with 1 on
`ValueError`. -/
def socketsPerNode (roots : List RSpec) : Nat :=
  match countPerNode roots "socket" none with
  | some c => if c = 0 then 1 else c
  | none => 1

/-- Ceiling division on naturals; models `int(math.ceil(a / b))` for a positive
divisor (Python evaluates it in floating point, which agrees with the exact
ceiling on all realistic magnitudes). -/
def cdiv (a b : Nat) : Nat := (a + b - 1) / b

/-- `types.pop(key, None)` on the kwargs dict (keys are unique in a Python
dict): the value at `key`, and the pairs with `key` removed. -/
def popKey (types : List (String × Nat)) (k : String) :
    Option Nat × List (String × Nat) :=
  (types.lookup k, types.filter (fun p => p.1 ≠ k))

/-- `types[key] = n` on the kwargs dict: replace in place when present, else
append. -/
def setKey (types : List (String × Nat)) (k : String) (v : Nat) : List (String × Nat) :=
  if (types.lookup k).isSome then types.map (fun p => if p.1 = k then (k, v) else p)
  else types ++ [(k, v)]

/-- The backward-compatibility rewrite in `nodes_required`:
`if n := types.pop(old, None): types[new] = n`. -/
def applyAlias (types : List (String × Nat)) (old new : String) : List (String × Nat) :=
  match popKey types old with
  | (some n, rest) => if n ≠ 0 then setKey rest new n else rest
  | (none, rest) => rest

/-- `Backend.nodes_required(**types)`: starting from 1 node, take the max of
`ceil(count / count_per_node(type))` over the requested types, skipping types
whose `count_per_node` raises `ValueError`. -/
def nodesRequired (roots : List RSpec) (types : List (String × Nat)) : Nat :=
  (applyAlias (applyAlias types "max_cpus" "cpu") "max_gpus" "gpu").foldl
    (fun nodes p =>
      match countPerNode roots p.1 none with
      | none => nodes
      | some perNode => if 0 < perNode then max nodes (cdiv p.2 perNode) else nodes)
    1

/-- Stated from the spec sentence for comparison with `nodesRequired`: the max
over each requested type with a defined per-node count of
`ceil(requested / count_per_node(type))`, with a floor of 1. -/
def claimedNodesRequired (roots : List RSpec) (types : List (String × Nat)) : Nat :=
  (types.filterMap (fun p => (countPerNode roots p.1 none).map (fun c => cdiv p.2 c))).foldl
    max 1

/-- The dict returned by `compute_required_resources`. -/
structure ResourceView where
  np : Nat
  ranks : Nat
  ranks_per_socket : Nat
  nodes : Nat
  sockets : Nat
deriving DecidableEq

/-- `Backend.compute_required_resources(ranks, ranks_per_socket)`.  `Except`
models the `ValueError`s (the spec names both of the first two
`InvalidTopology`) and Python's `ZeroDivisionError`. -/
def computeRequiredResources (roots : List RSpec) (ranks ranks_per_socket : Option Nat) :
    Except String ResourceView :=
  if ranks = none ∧ ranks_per_socket ≠ none then
    .error "ranks_per_socket requires ranks also be defined"
  else if (entriesOf (resourceIndex roots) "socket").isEmpty then
    .error "compute_required_resources assumes socket-based topology"
  else if ranks.getD 0 = 0 ∧ ranks_per_socket.getD 0 = 0 then
    .ok ⟨0, 0, 0, 0, 0⟩
  else
    match ranks, ranks_per_socket with
    | none, none =>
      -- dead code in the source (`not ranks` already returned): ranks = rps = 1
      .ok ⟨1, 1, 1, 1, 1⟩
    | some r, none =>
      match countPerSocket roots "cpu" none with
      | none => .error "Unable to determine count_per_socket for cpu"
      | some cps =>
        if cps = 0 then .error "division by zero"
        else
          let rps := min r cps
          let nodes := cdiv r (cps * socketsPerNode roots)
          .ok ⟨r, r, rps, nodes, cdiv r rps⟩
    | some r, some rps =>
      if rps = 0 then .error "division by zero"
      else .ok ⟨r, r, rps, cdiv r (rps * socketsPerNode roots), cdiv r rps⟩
    | none, some _ =>
      -- unreachable: excluded by the first check
      .error "ranks_per_socket requires ranks also be defined"

/-! ## Character-level string helpers (Python `str` methods used by the
parsing code, modelled over `List Char`) -/

/-- Python `s.split(sep)` for a one-character separator: split on every
occurrence, yielding `count(sep) + 1` (possibly empty) pieces. -/
def splitOnChar (sep : Char) : List Char → List (List Char)
  | [] => [[]]
  | c :: rest =>
    let r := splitOnChar sep rest
    if c = sep then [] :: r
    else
      match r with
      | h :: t => (c :: h) :: t
      | [] => [[c]]

/-- A piece is blank when it has no non-whitespace character; Python filters
such pieces with `if _.split()`. -/
def isBlank (l : List Char) : Bool := l.all Char.isWhitespace

/-- Python `s.strip()`. -/
def stripChars (l : List Char) : List Char :=
  ((l.dropWhile Char.isWhitespace).reverse.dropWhile Char.isWhitespace).reverse

/-- Python `s.split()` (no separator): maximal runs of non-whitespace. -/
def splitWsChars (l : List Char) : List (List Char) :=
  (splitOnChar ' ' (l.map (fun c => if c.isWhitespace then ' ' else c))).filter (· ≠ [])

/-- Python `s.rstrip("+")`. -/
def rstripPlus (l : List Char) : List Char :=
  (l.reverse.dropWhile (· = '+')).reverse

/-- Decimal digits to a natural number; `none` when empty or non-digit. -/
def digitsToNat (ds : List Char) : Option Nat :=
  if ds = [] then none
  else if ds.all Char.isDigit then
    some (ds.foldl (fun a c => a * 10 + (c.toNat - '0'.toNat)) 0)
  else none

/-- Python `int(s)`: strip whitespace, optional sign, decimal digits; `none`
models `ValueError`. -/
def parsePyInt (l : List Char) : Option Int :=
  match stripChars l with
  | '-' :: ds => (digitsToNat ds).map (fun n => -(n : Int))
  | '+' :: ds => (digitsToNat ds).map (fun n => (n : Int))
  | ds => (digitsToNat ds).map (fun n => (n : Int))

/-! ## Slurm sacct row parsing (`src/hpcc_slurm/process.py`, `SlurmProcess.poll`) -/

/-- The per-job accounting record built by `poll` from one sacct row. -/
structure AcctRow where
  jobid : String
  state : String
  returncode : Int
  signal : Int
deriving DecidableEq

/-- The exit-code parsing of one sacct row:
`returncode, signal = [int(_) for _ in exit_code.split(":")]` with the
`ValueError` fallback `returncode = int(exit_code); signal = 0` (and `none`
when that fallback raises too). -/
def exitCodePair (exitCode : List Char) : Option (Int × Int) :=
  match (splitOnChar ':' exitCode).mapM parsePyInt with
  | some [a, b] => some (a, b)
  | _ => (parsePyInt exitCode).map (fun rc => (rc, 0))

/-- The row unpacking of `SlurmProcess.poll` applied to the non-blank stripped
fields: exactly `jobid, state, exit_code`, with the state reduced to
`state.split()[0].rstrip("+")`.  `none` models an uncaught exception. -/
def parseAcctFields : List (List Char) → Option AcctRow
  | [jobid, state, exitCode] =>
    match exitCodePair exitCode with
    | none => none
    | some (rc, sg) =>
      match splitWsChars state with
      | [] => none
      | w :: _ => some ⟨⟨jobid⟩, ⟨rstripPlus w⟩, rc, sg⟩
  | _ => none

/-- Parsing of one sacct row inside `SlurmProcess.poll`:
`jobid, state, exit_code = [_.strip() for _ in line.split("|") if _.split()]`
followed by `parseAcctFields`. -/
def parseAcctLine (line : String) : Option AcctRow :=
  parseAcctFields (((splitOnChar '|' line.data).filter (fun f => !(isBlank f))).map stripChars)

/-- The decision `poll` takes on a parsed row: `PENDING`/`RUNNING` (after
`.upper()`) means the job is not done (`None`); otherwise the returncode is
`max(returncode, signal)`. -/
def pollDecision (row : AcctRow) : Option Int :=
  if String.mk (row.state.data.map Char.toUpper) = "PENDING" ∨
      String.mk (row.state.data.map Char.toUpper) = "RUNNING" then none
  else some (max row.returncode row.signal)

/-! ## Launch specs and the srun MPMD emitter
(`src/hpc_connect/launch.py`, `src/hpcc_slurm/launch.py`) -/

/-- `LaunchSpec`: one SPMD/MPMD segment, its argv tokens and the inferred
process count (`int | None`, so `Option Int`). -/
structure LaunchSpec where
  args : List String
  processes : Option Int
deriving DecidableEq

/-- `argp(args)`: index of the first token that resolves to an executable on
PATH (`shutil.which` is the `which` parameter); `none` models `-1`. -/
def argpIdx (which : String → Bool) (args : List String) : Option Nat :=
  args.findIdx? which

/-- `LaunchSpec.partition`: split the argv at the first executable token into
launcher options and program argv. -/
def LaunchSpec.partArgs (which : String → Bool) (s : LaunchSpec) :
    List String × List String :=
  match argpIdx which s.args with
  | none => ([], s.args)
  | some i => (s.args.take i, s.args.drop i)

/-- The slices of the launch configuration consulted by `SrunAdapter`:
`config.mpmd.local_options`, `config.mpmd.global_options`,
`config.default_options` and `config.pre_options`. -/
structure SrunLaunchConfig where
  mpmd_local_options : List String
  mpmd_global_options : List String
  default_options : List String
  pre_options : List String

/-- One line of the multi-prog file built in the `for spec in specs` loop of
`SrunAdapter._join_mpmd`: the ranks token followed by each expanded option or
argv token prefixed by a space, and a newline. -/
def mpmdLine (which : String → Bool) (expand : String → ResourceView → String)
    (cfg : SrunLaunchConfig) (view : ResourceView) (ranks : String)
    (spec : LaunchSpec) : String :=
  let (launch_opts, program_opts) := spec.partArgs which
  ranks
    ++ String.join (cfg.mpmd_local_options.map (fun o => " " ++ expand o view))
    ++ String.join (launch_opts.map (fun o => " " ++ expand o view))
    ++ String.join (cfg.pre_options.map (fun o => " " ++ expand o view))
    ++ String.join (program_opts.map (fun o => " " ++ expand o view))
    ++ "\n"

/-- The loop of `_join_mpmd`: threads the running rank counter `np` and the
accumulated file text; a truthy process count `p` produces the range
`np-(np+p-1)` and advances by `p`, otherwise the single rank `np` advancing
by 1. -/
def joinMpmdGo (which : String → Bool) (expand : String → ResourceView → String)
    (rv : Option Int → ResourceView) (cfg : SrunLaunchConfig) :
    List LaunchSpec → Int → String → Int × String
  | [], np, acc => (np, acc)
  | spec :: rest, np, acc =>
    let (ranks, np2) :=
      match spec.processes with
      | some p => if p ≠ 0 then (toString np ++ "-" ++ toString (np + p - 1), np + p)
                  else (toString np, np + 1)
      | none => (toString np, np + 1)
    let line := mpmdLine which expand cfg (rv spec.processes) ranks spec
    joinMpmdGo which expand rv cfg rest np2 (acc ++ line)

/-- `SrunAdapter._join_mpmd(exec, specs)`: returns the emitted command line and
the text written to `launch-multi-prog.conf`.  The backend's `resource_view`
(defined outside the sources; each expanded option is `opt % view`) enters as
the parameters `rv` and `expand`. -/
def joinMpmd (which : String → Bool) (expand : String → ResourceView → String)
    (rv : Option Int → ResourceView) (cfg : SrunLaunchConfig) (exec : String)
    (specs : List LaunchSpec) : List String × String :=
  let (np, text) := joinMpmdGo which expand rv cfg specs 0 ""
  let view := rv (some np)
  let cmd := [exec]
    ++ cfg.mpmd_global_options.map (fun o => expand o view)
    ++ cfg.default_options.map (fun o => expand o view)
    ++ ["-n" ++ toString np, "--multi-prog", "launch-multi-prog.conf"]
  (cmd, text)

/-- Stated from the claim for comparison with `joinMpmd`: the expected file
text for segments with known process counts, with consecutive rank ranges
partitioning `0..total-1`, each range followed by the segment's argv. -/
def claimedMpmdText : List LaunchSpec → Int → String
  | [], _ => ""
  | spec :: rest, np =>
    let p := spec.processes.getD 1
    toString np ++ "-" ++ toString (np + p - 1)
      ++ String.join (spec.args.map (fun a => " " ++ a)) ++ "\n"
      ++ claimedMpmdText rest (np + p)

/-- The total process count of an MPMD segment list (a segment of unknown
count occupies one rank). -/
def specsTotal : List LaunchSpec → Int
  | [] => 0
  | spec :: rest => spec.processes.getD 1 + specsTotal rest

/-! ## Futures (`src/hpc_connect/futures.py`, `Future.cancel`) -/

/-- The state of a `Future` that `cancel` reads and writes: the wrapped
process, the done event, the cancelled flag and the registered done
callbacks (identified by their position in the registration order). -/
structure FutureState (π : Type) where
  proc : π
  is_done : Bool
  cancelled : Bool
  done_callbacks : List Nat
deriving DecidableEq

/-- `Future.cancel()`: under the lock, return `False` when the done event is
set; otherwise mark cancelled, attempt `self.proc.cancel()` swallowing any
exception (`pcancel` is the process's cancel, `Except` models raising), set
the done event and fire the done callbacks.  Returns the boolean result, the
new state, and the callbacks fired (in order). -/
def futureCancel {π : Type} (pcancel : π → Except Unit π) (f : FutureState π) :
    Bool × FutureState π × List Nat :=
  if f.is_done then (false, f, [])
  else
    let proc2 := match pcancel f.proc with
      | .ok p => p
      | .error _ => f.proc
    (true, { f with proc := proc2, cancelled := true, is_done := true }, f.done_callbacks)

/-! ## Environment configuration (`src/hpc_connect/config.py`, `read_env_config`) -/

/-- The sections of `config_defaults`: the only sections recognised by
`read_env_config`. -/
def configSections : List String := ["config", "machine", "submit", "launch"]

/-- `d[key] = v` on a Python dict modelled as an ordered association list:
replace in place when present, else append. -/
def setAssoc {V : Type} (l : List (String × V)) (k : String) (v : V) :
    List (String × V) :=
  if l.any (fun p => p.1 = k) then l.map (fun p => if p.1 = k then (k, v) else p)
  else l ++ [(k, v)]

/-- `data.setdefault(section, {}).update({key: value})`. -/
def updateScopeData {V : Type} (data : List (String × List (String × V)))
    (sec key : String) (v : V) : List (String × List (String × V)) :=
  if data.any (fun p => p.1 = sec) then
    data.map (fun p => if p.1 = sec then (p.1, setAssoc p.2 key v) else p)
  else data ++ [(sec, [(key, v)])]

/-- One iteration of the `for var in os.environ` loop of `read_env_config`:
skip variables not prefixed `HPCC_`, lowercase the rest, split on `_` into the
section and the `_`-joined key, skip unknown sections, and store the converted
value.  `loadMappings` and `safeLoads` are the source's value converters
(`load_mappings` for the `mappings` key, `safe_loads` otherwise), abstracted
into the value type `V`. -/
def readEnvVar {V : Type} (loadMappings safeLoads : String → V)
    (data : List (String × List (String × V))) (var val : String) :
    List (String × List (String × V)) :=
  if var.data.take 5 ≠ "HPCC_".data then data
  else
    match (splitOnChar '_' ((var.data.drop 5).map Char.toLower)).map (fun l => String.mk l) with
    | [] => data
    | sec :: parts =>
      let key := "_".intercalate parts
      if sec ∉ configSections then data
      else updateScopeData data sec key
        (if key = "mappings" then loadMappings val else safeLoads val)

/-- `read_env_config()`: fold `readEnvVar` over the environment; `none` when no
variable contributed (no environment scope is created). -/
def readEnvConfig (V : Type) (loadMappings safeLoads : String → V)
    (env : List (String × String)) : Option (List (String × List (String × V))) :=
  let data := env.foldl (fun d p => readEnvVar loadMappings safeLoads d p.1 p.2) []
  if data.isEmpty then none else some data

/-! ## PBS process cancel (`src/hpcc_pbs/process.py`, `PBSProcess.cancel`) -/

/-- The state of a `PBSProcess` that `cancel` touches. -/
structure PBSProcState where
  jobid : String
  returncode : Option Int
deriving DecidableEq

/-- `PBSProcess.cancel()`: resolve `qdel` on PATH (`RuntimeError` when absent)
and set `returncode = 1`.  The returned list records, in order, every
subprocess command line the body spawns; the source spawns none. -/
def pbsCancel (whichQdel : Option String) (s : PBSProcState) :
    Except String (PBSProcState × List (List String)) :=
  match whichQdel with
  | none => .error "qdel not found on PATH"
  | some _ => .ok ({ s with returncode := some 1 }, [])

/-! ## Job specification (`src/hpc_connect/jobspec.py`) -/

/-- `JobSpec`: the frozen dataclass.  `time_limit` (a Python float) is
modelled as a rational; `workspace` as its path string; the values of
`extensions` (typed `Any`) as strings. -/
structure JobSpec where
  name : String
  commands : List String
  nodes : Option Nat
  cpus : Option Nat
  gpus : Option Nat
  time_limit : Rat
  env : List (String × Option String)
  output : Option String
  error : Option String
  workspace : String
  submit_args : List String
  extensions : List (String × String)
deriving DecidableEq

/-- The keyword arguments accepted by `JobSpec.with_updates` /
`dataclasses.replace`: each field optionally replaced. -/
structure JobSpecUpdates where
  name : Option String := none
  commands : Option (List String) := none
  nodes : Option (Option Nat) := none
  cpus : Option (Option Nat) := none
  gpus : Option (Option Nat) := none
  time_limit : Option Rat := none
  env : Option (List (String × Option String)) := none
  output : Option (Option String) := none
  error : Option (Option String) := none
  workspace : Option String := none
  submit_args : Option (List String) := none
  extensions : Option (List (String × String)) := none

/-- `JobSpec.with_updates(**kwargs)` = `dataclasses.replace(self, **kwargs)`:
a new `JobSpec` with the given fields replaced.  No validation of any kind is
performed. -/
def withUpdates (s : JobSpec) (u : JobSpecUpdates) : JobSpec where
  name := u.name.getD s.name
  commands := u.commands.getD s.commands
  nodes := u.nodes.getD s.nodes
  cpus := u.cpus.getD s.cpus
  gpus := u.gpus.getD s.gpus
  time_limit := u.time_limit.getD s.time_limit
  env := u.env.getD s.env
  output := u.output.getD s.output
  error := u.error.getD s.error
  workspace := u.workspace.getD s.workspace
  submit_args := u.submit_args.getD s.submit_args
  extensions := u.extensions.getD s.extensions

/-- Stated from the spec sentence for comparison with the source: at least one
of `nodes`/`cpus` is specified; if both, `nodes ≤ cpus`; `commands` is
non-empty. -/
def jobSpecInvariantHolds (s : JobSpec) : Bool :=
  (s.nodes.isSome || s.cpus.isSome)
    && (match s.nodes, s.cpus with
        | some n, some c => decide (n ≤ c)
        | _, _ => true)
    && !s.commands.isEmpty

/-! ## Launcher argument parsing (`src/hpc_connect/launch/base.py`,
`ArgumentParser`) -/

/-- Python `s.replace(pat, repl)` on character lists: replace every
(left-to-right, non-overlapping) occurrence of a non-empty `pat`.  The fuel is
the length of the scanned list (each step consumes at least one character). -/
def replaceCharsAux (pat repl : List Char) : Nat → List Char → List Char
  | 0, s => s
  | fuel + 1, s =>
    if pat ≠ [] ∧ pat.isPrefixOf s then
      repl ++ replaceCharsAux pat repl fuel (s.drop pat.length)
    else
      match s with
      | [] => []
      | c :: rest => c :: replaceCharsAux pat repl fuel rest

/-- Python `arg.replace(pat, repl)` for the non-empty patterns used by
`ArgumentParser.mapped`. -/
def pyReplace (s pat repl : String) : String :=
  ⟨replaceCharsAux pat.data repl.data s.data.length s.data⟩

/-- The state built by `ArgumentParser.__init__(mappings, numproc_flag)`:
`self.mappings = mappings or {}` and, when `"-n"` is not already a key, the
entry `"-n" -> numproc_flag` is appended. -/
structure ArgumentParser where
  mappings : List (String × String)
  numproc_flag : String

/-- `ArgumentParser.__init__`. -/
def mkArgumentParser (mappings : Option (List (String × String)))
    (numproc_flag : String) : ArgumentParser :=
  let m := mappings.getD []
  let m2 := if (m.lookup "-n").isSome then m else m ++ [("-n", numproc_flag)]
  ⟨m2, numproc_flag⟩

/-- `ArgumentParser.mapped(arg)`: an exact mapping key wins; otherwise the
first mapping whose `pat=` prefixes the argument rewrites it with
`arg.replace(pat, repl)`. -/
def mapped (p : ArgumentParser) (arg : String) : Option String :=
  match p.mappings.lookup arg with
  | some v => some v
  | none =>
    p.mappings.findSome? (fun q =>
      if (q.1 ++ "=").data.isPrefixOf arg.data then some (pyReplace arg q.1 q.2)
      else none)

/-- What `parse_args` does with the result of `mapped` for a pre-command
token: drop just the token (`SUPPRESS=` prefix), drop the token and its
successor (`SUPPRESS`), or continue with the (possibly rewritten) token; a
falsy (empty) mapping value leaves the token unchanged. -/
inductive MapAction where
  | drop1
  | drop2
  | use (a : String)

/-- The `if new := self.mapped(arg)` block of `parse_args`. -/
def mapStep (p : ArgumentParser) (arg : String) : MapAction :=
  match mapped p arg with
  | some new =>
    if new = "" then .use arg
    else if "SUPPRESS=".data.isPrefixOf new.data then .drop1
    else if new = "SUPPRESS" then .drop2
    else .use new
  | none => .use arg

/-- The body of the `while True` loop of `ArgumentParser.parse_args`, with the
loop state (current segment, its process count, `command_seen`, segments so
far) explicit.  `none` models an uncaught exception (`StopIteration` from a
trailing flag or `ValueError` from `int`). -/
def parseArgsGo (p : ArgumentParser) (which : String → Bool) :
    List String → List String → Option Int → Bool → List LaunchSpec →
    Option (List LaunchSpec)
  | [], spec, processes, _, acc =>
    some (if spec.isEmpty then acc else acc ++ [⟨spec, processes⟩])
  | arg :: rest, spec, processes, command_seen, acc =>
    if command_seen || which arg then
      if arg = ":" then
        parseArgsGo p which rest [] none false (acc ++ [⟨spec, processes⟩])
      else
        parseArgsGo p which rest (spec ++ [arg]) processes (command_seen || which arg) acc
    else
      match mapStep p arg with
      | .drop1 => parseArgsGo p which rest spec processes (command_seen || which arg) acc
      | .drop2 =>
        match rest with
        | [] => none
        | _ :: rest2 => parseArgsGo p which rest2 spec processes (command_seen || which arg) acc
      | .use a =>
        if a = p.numproc_flag then
          match rest with
          | [] => none
          | s :: rest2 =>
            match parsePyInt s.data with
            | none => none
            | some k =>
              parseArgsGo p which rest2 (spec ++ [a, s]) (some k)
                (command_seen || which arg) acc
        else if (p.numproc_flag ++ "=").data.isPrefixOf a.data then
          match parsePyInt (a.data.drop (p.numproc_flag.length + 1)) with
          | none => none
          | some k =>
            parseArgsGo p which rest (spec ++ [a]) (some k)
              (command_seen || which arg) acc
        else parseArgsGo p which rest (spec ++ [a]) processes (command_seen || which arg) acc

/-- `ArgumentParser.parse_args(args)`. -/
def parseArgs (p : ArgumentParser) (which : String → Bool) (args : List String) :
    Option (List LaunchSpec) :=
  parseArgsGo p which args [] none false []

/-! ## Concrete resource trees and launcher inputs used by witnesses and
counterexamples -/

/-- A canonical single-group tree: node(1) -> socket(2) -> cpu(4). -/
def demoTree : List RSpec := [.mk "node" 1 [.mk "socket" 2 [.mk "cpu" 4 []]]]

/-- A heterogeneous tree with two top-level node groups whose socket counts
differ. -/
def demoTree2 : List RSpec :=
  [.mk "node" 1 [.mk "socket" 2 [.mk "cpu" 4 []]],
   .mk "node" 1 [.mk "socket" 3 [.mk "gpu" 8 []]]]

/-- A tree with no socket level. -/
def demoTreeNoSocket : List RSpec := [.mk "node" 1 [.mk "cpu" 4 []]]

/-- Launch configuration with all option lists empty (the defaults). -/
def srunCfgEmpty : SrunLaunchConfig := ⟨[], [], [], []⟩

/-- Percent expansion acting as the identity (no `%` placeholder in any
token). -/
def expandId : String → ResourceView → String := fun s _ => s

/-- A constant backend resource view. -/
def rvConst : Option Int → ResourceView := fun _ => ⟨0, 0, 0, 0, 0⟩

/-- A PATH on which exactly `ls` is an executable. -/
def whichLs : String → Bool := fun s => s = "ls"

/-- A well-formed job specification. -/
def demoJobSpec : JobSpec :=
  ⟨"my-job", ["ls"], some 1, some 1, none, 1500, [], none, none, "/tmp/ws", [], []⟩

/-- The update that empties `commands` and sets `nodes > cpus`. -/
def demoBadUpdates : JobSpecUpdates :=
  { commands := some [], nodes := some (some 5), cpus := some (some 2) }

/-- The canonical tree shape of the spec, `node -> socket -> leaves`, with a
single node group. -/
def canonicalTree (n s : Nat) (leaves : List (String × Nat)) : List RSpec :=
  [.mk "node" n [.mk "socket" s (leaves.map (fun p => .mk p.1 p.2 []))]]

/-! ## Helper lemmas -/

theorem lookup_eq_none_of_keys {β : Type} :
    ∀ (l : List (String × β)) (k : String), (∀ p ∈ l, p.1 ≠ k) → l.lookup k = none := by
  intro l k h
  induction l with
  | nil => rfl
  | cons a t ih =>
    obtain ⟨a1, a2⟩ := a
    rw [List.lookup_cons]
    have hne : a1 ≠ k := h (a1, a2) (by simp)
    have : (k == a1) = false := by
      simpa [beq_iff_eq] using fun hh => hne hh.symm
    simp only [this]
    exact ih fun p hp => h p (by simp [hp])

theorem applyAlias_eq_self (types : List (String × Nat)) (old new : String)
    (h : ∀ p ∈ types, p.1 ≠ old) : applyAlias types old new = types := by
  have hl : types.lookup old = none := lookup_eq_none_of_keys types old h
  have hf : types.filter (fun p => p.1 ≠ old) = types :=
    List.filter_eq_self.mpr fun p hp => decide_eq_true (h p hp)
  unfold applyAlias popKey
  rw [hl, hf]

theorem countPerNode_some_pos (roots : List RSpec) (t : String) (c : Nat)
    (h : countPerNode roots t none = some c) : 0 < c := by
  unfold countPerNode at h
  split at h
  · exact absurd h (by simp)
  · split at h
    · rename_i htot
      cases h
      omega
    · exact absurd h (by simp)

theorem cdiv_le_cdiv_left {a b : Nat} (c : Nat) (h : a ≤ b) : cdiv a c ≤ cdiv b c :=
  Nat.div_le_div_right (by omega)

theorem nodesRequired_foldl_eq (roots : List RSpec) :
    ∀ (l : List (String × Nat)) (n : Nat),
      l.foldl
        (fun nodes p =>
          match countPerNode roots p.1 none with
          | none => nodes
          | some perNode => if 0 < perNode then max nodes (cdiv p.2 perNode) else nodes)
        n
      = (l.filterMap (fun p => (countPerNode roots p.1 none).map (fun c => cdiv p.2 c))).foldl
          max n := by
  intro l
  induction l with
  | nil => intro n; rfl
  | cons a t ih =>
    intro n
    rw [List.foldl_cons, List.filterMap_cons]
    cases hc : countPerNode roots a.1 none with
    | none => simpa [hc] using ih n
    | some per =>
      have hpos := countPerNode_some_pos roots a.1 per hc
      simp only [hc, Option.map_some, List.foldl_cons, hpos, if_pos]
      exact ih (max n (cdiv a.2 per))


theorem walkChildren_map_leaf (t0 : String) (leaves : List (String × Nat)) :
    walkChildren t0 (leaves.map (fun p => RSpec.mk p.1 p.2 [])) =
      leaves.map (fun p => ⟨p.1, p.2, some t0⟩) := by
  induction leaves with
  | nil => rfl
  | cons a t ih => simp [walkChildren, walkResources, ih]

theorem canonical_index (n s : Nat) (leaves : List (String × Nat)) :
    resourceIndex (canonicalTree n s leaves) =
      ⟨"node", n, none⟩ :: ⟨"socket", s, some "node"⟩ ::
        leaves.map (fun p => ⟨p.1, p.2, some "socket"⟩) := by
  simp [resourceIndex, canonicalTree, walkResources, walkChildren, walkChildren_map_leaf]

theorem filter_key_nodup :
    ∀ (l : List (String × Nat)) (t : String) (c : Nat),
      (l.map Prod.fst).Nodup → (t, c) ∈ l →
      l.filter (fun p => p.1 = t) = [(t, c)] := by
  intro l
  induction l with
  | nil => simp
  | cons a tl ih =>
    intro t c hnd hm
    rw [List.map_cons, List.nodup_cons] at hnd
    rcases List.mem_cons.mp hm with rfl | hmem
    · rw [List.filter_cons, if_pos (by simp)]
      have hnil : tl.filter (fun p => p.1 = t) = [] :=
        List.filter_eq_nil_iff.mpr fun p hp => by
          simp only [decide_eq_true_eq]
          intro he
          have hin : p.1 ∈ tl.map Prod.fst := List.mem_map_of_mem Prod.fst hp
          exact hnd.1 (he ▸ hin)
      rw [hnil]
    · have ht : t ∈ tl.map Prod.fst := List.mem_map_of_mem Prod.fst hmem
      have hne : a.1 ≠ t := fun he => hnd.1 (he ▸ ht)
      rw [List.filter_cons, if_neg (by simpa using hne)]
      exact ih t c hnd.2 hmem

theorem canonical_entries_socket (n s : Nat) (leaves : List (String × Nat))
    (hs : "socket" ∉ leaves.map Prod.fst) :
    entriesOf (resourceIndex (canonicalTree n s leaves)) "socket" =
      [⟨"socket", s, some "node"⟩] := by
  rw [canonical_index]
  unfold entriesOf
  rw [List.filter_cons, List.filter_cons,
    if_neg (by simp), if_pos (by simp)]
  have hnil : (leaves.map (fun p => (⟨p.1, p.2, some "socket"⟩ : Entry))).filter
      (fun e => e.rtype = "socket") = [] :=
    List.filter_eq_nil_iff.mpr fun e he => by
      obtain ⟨p, hp, rfl⟩ := List.mem_map.mp he
      simp only [decide_eq_true_eq]
      exact fun hc => hs (hc ▸ List.mem_map_of_mem Prod.fst hp)
  rw [hnil]

theorem canonical_entries_leaf (n s : Nat) (leaves : List (String × Nat))
    (t : String) (c : Nat)
    (hmem : (t, c) ∈ leaves) (hnd : (leaves.map Prod.fst).Nodup)
    (hn : "node" ∉ leaves.map Prod.fst) (hs : "socket" ∉ leaves.map Prod.fst) :
    entriesOf (resourceIndex (canonicalTree n s leaves)) t =
      [⟨t, c, some "socket"⟩] := by
  have ht : t ∈ leaves.map Prod.fst := List.mem_map_of_mem Prod.fst hmem
  have htn : t ≠ "node" := fun he => hn (he ▸ ht)
  have hts : t ≠ "socket" := fun he => hs (he ▸ ht)
  rw [canonical_index]
  unfold entriesOf
  rw [List.filter_cons, List.filter_cons,
    if_neg (by simpa using fun h => htn h.symm),
    if_neg (by simpa using fun h => hts h.symm)]
  rw [List.filter_map]
  have hcomp : ((fun e => decide (Entry.rtype e = t)) ∘
      fun (p : String × Nat) => (⟨p.1, p.2, some "socket"⟩ : Entry)) =
      fun (p : String × Nat) => decide (p.1 = t) := rfl
  rw [hcomp, filter_key_nodup leaves t c hnd hmem]
  rfl

theorem climb_through_socket (idx : List Entry) (s : Nat)
    (hsock : (entriesOf idx "socket").head? = some ⟨"socket", s, some "node"⟩) :
    ∀ (fuel c : Nat), climbToNode idx (fuel + 2) c (some "socket") = some (c * s) := by
  intro fuel c
  show (match (entriesOf idx "socket").head? with
        | none => some 0
        | some e => climbToNode idx (fuel + 1) (c * e.count) e.parent) = some (c * s)
  rw [hsock]
  rfl

/-! ## Claim theorems -/

/-- C1: for every resource tree and per-type totals request (with the
backward-compatibility alias keys absent), `nodes_required` equals the max
over each requested type with a positive per-node count of
`ceil(requested / count_per_node(type))` with a floor of 1; for a single
requested type with defined (hence positive) per-node count it is
`max(1, ceil(k / count_per_node(type)))`, and it is non-decreasing in k. -/
theorem nodes_required_max_ceil :
    (∀ (roots : List RSpec) (types : List (String × Nat)),
        (∀ p ∈ types, p.1 ≠ "max_cpus" ∧ p.1 ≠ "max_gpus") →
        nodesRequired roots types = claimedNodesRequired roots types) ∧
    (∀ (roots : List RSpec) (t : String) (k c : Nat),
        t ≠ "max_cpus" → t ≠ "max_gpus" →
        countPerNode roots t none = some c →
        nodesRequired roots [(t, k)] = max 1 (cdiv k c)) ∧
    (∀ (roots : List RSpec) (t : String) (k1 k2 c : Nat),
        t ≠ "max_cpus" → t ≠ "max_gpus" →
        countPerNode roots t none = some c → k1 ≤ k2 →
        nodesRequired roots [(t, k1)] ≤ nodesRequired roots [(t, k2)]) := by
  have base : ∀ (roots : List RSpec) (types : List (String × Nat)),
      (∀ p ∈ types, p.1 ≠ "max_cpus" ∧ p.1 ≠ "max_gpus") →
      nodesRequired roots types = claimedNodesRequired roots types := by
    intro roots types h
    unfold nodesRequired claimedNodesRequired
    rw [applyAlias_eq_self types "max_cpus" "cpu" fun p hp => (h p hp).1,
      applyAlias_eq_self types "max_gpus" "gpu" fun p hp => (h p hp).2]
    exact nodesRequired_foldl_eq roots types 1
  have single : ∀ (roots : List RSpec) (t : String) (k c : Nat),
      t ≠ "max_cpus" → t ≠ "max_gpus" →
      countPerNode roots t none = some c →
      nodesRequired roots [(t, k)] = max 1 (cdiv k c) := by
    intro roots t k c h1 h2 hc
    rw [base roots [(t, k)] (by simpa using ⟨h1, h2⟩)]
    simp [claimedNodesRequired, hc]
  refine ⟨base, single, ?_⟩
  intro roots t k1 k2 c h1 h2 hc hk
  rw [single roots t k1 c h1 h2 hc, single roots t k2 c h1 h2 hc]
  exact max_le_max (le_refl 1) (cdiv_le_cdiv_left c hk)

/-- Witness for C1 on the tree node(1) -> socket(2) -> cpu(4): 9 cpus need
`max(1, ceil(9/8)) = 2` nodes. -/
theorem nodes_required_max_ceil_witness :
    countPerNode demoTree "cpu" none = some 8 ∧
    nodesRequired demoTree [("cpu", 9)] = max 1 (cdiv 9 8) ∧
    nodesRequired demoTree [("cpu", 9)] ≤ nodesRequired demoTree [("cpu", 17)] :=
  ⟨by decide,
   nodes_required_max_ceil.2.1 demoTree "cpu" 9 8 (by decide) (by decide) (by decide),
   nodes_required_max_ceil.2.2 demoTree "cpu" 9 17 8 (by decide) (by decide) (by decide)
     (by decide)⟩

/-- C3: `compute_required_resources` fails when `ranks_per_socket` is given
without `ranks`; fails on any input when the resource tree has no socket
level; and returns the all-zero view when neither `ranks` nor
`ranks_per_socket` is given (on a socket topology). -/
theorem compute_required_resources_guards :
    (∀ (roots : List RSpec) (k : Nat),
        computeRequiredResources roots none (some k) =
          .error "ranks_per_socket requires ranks also be defined") ∧
    (∀ (roots : List RSpec) (r s : Option Nat),
        (entriesOf (resourceIndex roots) "socket").isEmpty = true →
        ∃ msg, computeRequiredResources roots r s = .error msg) ∧
    (∀ (roots : List RSpec),
        (entriesOf (resourceIndex roots) "socket").isEmpty = false →
        computeRequiredResources roots none none = .ok ⟨0, 0, 0, 0, 0⟩) := by
  refine ⟨?_, ?_, ?_⟩
  · intro roots k
    simp [computeRequiredResources]
  · intro roots r s hs
    unfold computeRequiredResources
    by_cases h1 : r = none ∧ s ≠ none
    · exact ⟨_, by rw [if_pos h1]⟩
    · rw [if_neg h1, if_pos hs]
      exact ⟨_, rfl⟩
  · intro roots hs
    simp [computeRequiredResources, hs]

/-- Witness for C3: on the demo trees the three guards fire as stated. -/
theorem compute_required_resources_guards_witness :
    (entriesOf (resourceIndex demoTreeNoSocket) "socket").isEmpty = true ∧
    (∃ msg, computeRequiredResources demoTreeNoSocket (some 4) none = .error msg) ∧
    (entriesOf (resourceIndex demoTree) "socket").isEmpty = false ∧
    computeRequiredResources demoTree none none = .ok ⟨0, 0, 0, 0, 0⟩ :=
  ⟨by decide,
   compute_required_resources_guards.2.1 demoTreeNoSocket (some 4) none (by decide),
   by decide,
   compute_required_resources_guards.2.2 demoTree (by decide)⟩

/-- C6: `Future.cancel` returns `False` when the future is already done;
otherwise it marks the future cancelled (attempting the process cancel
best-effort), sets the done event, fires the registered done callbacks and
returns `True`; hence two consecutive cancels on a not-yet-done future return
`(True, False)`. -/
theorem future_cancel_contract :
    (∀ (π : Type) (pcancel : π → Except Unit π) (f : FutureState π),
        f.is_done = true → futureCancel pcancel f = (false, f, [])) ∧
    (∀ (π : Type) (pcancel : π → Except Unit π) (f : FutureState π),
        f.is_done = false →
          (futureCancel pcancel f).1 = true ∧
          (futureCancel pcancel f).2.1.is_done = true ∧
          (futureCancel pcancel f).2.1.cancelled = true ∧
          (futureCancel pcancel f).2.2 = f.done_callbacks) ∧
    (∀ (π : Type) (pcancel : π → Except Unit π) (f : FutureState π),
        f.is_done = false →
          ((futureCancel pcancel f).1,
            (futureCancel pcancel (futureCancel pcancel f).2.1).1) = (true, false)) := by
  refine ⟨?_, ?_, ?_⟩
  · intro π pcancel f h
    simp [futureCancel, h]
  · intro π pcancel f h
    simp [futureCancel, h]
  · intro π pcancel f h
    simp [futureCancel, h]

/-- Witness for C6: a fresh future over the unit process cancels to
`(True, False)` across two calls. -/
theorem future_cancel_contract_witness :
    (FutureState.mk () false false [0]).is_done = false ∧
    ((futureCancel (fun u => Except.ok u) (FutureState.mk () false false [0])).1,
      (futureCancel (fun u => Except.ok u)
        (futureCancel (fun u => Except.ok u) (FutureState.mk () false false [0])).2.1).1) =
      (true, false) :=
  ⟨rfl, future_cancel_contract.2.2 Unit (fun u => Except.ok u) (FutureState.mk () false false [0]) rfl⟩

/-- C8: `PBSProcess.cancel` resolves `qdel` on PATH and sets the returncode to
1, but never spawns `qdel` on the stored jobid: for every resolved `qdel` path
and process state the list of spawned commands is empty (evaluated below at
the concrete failing input of the claim). -/
theorem pbs_cancel_sets_returncode_without_qdel :
    pbsCancel (some "/usr/bin/qdel") ⟨"123", none⟩ =
      .ok (⟨"123", some 1⟩, ([] : List (List String))) ∧
    (∀ (qdel : String) (s : PBSProcState),
        pbsCancel (some qdel) s = .ok ({ s with returncode := some 1 }, [])) ∧
    pbsCancel none ⟨"123", none⟩ = .error "qdel not found on PATH" :=
  ⟨rfl, fun _ _ => rfl, rfl⟩

/-- C9 counterexample: a `JobSpec` update that empties `commands` and sets
`nodes = 5 > cpus = 2` is accepted unchanged by `with_updates` (the
construction succeeds, returning the violating record), so the invariants the
claim states are not enforced. -/
theorem jobspec_accepts_invalid_counterexample :
    withUpdates demoJobSpec demoBadUpdates =
      ⟨"my-job", [], some 5, some 2, none, 1500, [], none, none, "/tmp/ws", [], []⟩ ∧
    jobSpecInvariantHolds (withUpdates demoJobSpec demoBadUpdates) = false :=
  ⟨rfl, rfl⟩

/-- C9 amended: `JobSpec` construction and `with_updates` perform no
validation: `with_updates` returns exactly the record with the requested
fields replaced, for every starting spec and every update (including updates
that violate the documented nodes/cpus/commands invariants). -/
theorem jobspec_with_updates_no_validation :
    ∀ (s : JobSpec) (u : JobSpecUpdates),
      withUpdates s u =
        ⟨u.name.getD s.name, u.commands.getD s.commands, u.nodes.getD s.nodes,
          u.cpus.getD s.cpus, u.gpus.getD s.gpus, u.time_limit.getD s.time_limit,
          u.env.getD s.env, u.output.getD s.output, u.error.getD s.error,
          u.workspace.getD s.workspace, u.submit_args.getD s.submit_args,
          u.extensions.getD s.extensions⟩ :=
  fun _ _ => rfl

/-- C2 counterexample: on a tree with two top-level node groups whose socket
counts differ, `gpu` occurs only under socket yet
`count_per_node(gpu) = 16 ≠ 8 × 5 = count_per_socket(gpu) × sockets_per_node`
(the walk-up always multiplies by the FIRST socket entry's count, while
`sockets_per_node` sums both groups). -/
theorem count_per_node_socket_product_counterexample :
    countPerNode demoTree2 "gpu" none = some 16 ∧
    countPerSocket demoTree2 "gpu" none = some 8 ∧
    socketsPerNode demoTree2 = 5 ∧
    some 16 ≠ some (8 * 5) :=
  ⟨by decide, by decide, by decide, by decide⟩

theorem countPerNode_of_single_entry (roots : List RSpec) (t : String) (e : Entry)
    (v : Nat) (hent : entriesOf (resourceIndex roots) t = [e])
    (hclimb : climbToNode (resourceIndex roots) ((resourceIndex roots).length + 1)
      e.count e.parent = some v)
    (hv : v ≠ 0) :
    countPerNode roots t none = some v := by
  unfold countPerNode
  rw [hent]
  have hm : List.mapM
      (fun e2 => climbToNode (resourceIndex roots) ((resourceIndex roots).length + 1)
        e2.count e2.parent) [e] = some [v] := by
    simp [List.mapM, List.mapM.loop, hclimb]
  rw [hm]
  simp [hv]

/-- C2 amended: on resource trees of the canonical single-group shape
`node -> socket -> leaves` (pairwise distinct leaf types with positive counts,
`t` among them), `count_per_node(t) = count_per_socket(t) × sockets_per_node`.
The claim fails for trees with multiple top-level node groups
(see the counterexample). -/
theorem count_per_node_socket_product_canonical :
    ∀ (n s : Nat) (leaves : List (String × Nat)) (t : String) (c : Nat),
      0 < s → 0 < c → (t, c) ∈ leaves →
      (leaves.map Prod.fst).Nodup →
      "node" ∉ leaves.map Prod.fst → "socket" ∉ leaves.map Prod.fst →
      countPerSocket (canonicalTree n s leaves) t none = some c ∧
      socketsPerNode (canonicalTree n s leaves) = s ∧
      countPerNode (canonicalTree n s leaves) t none =
        some (c * socketsPerNode (canonicalTree n s leaves)) := by
  intro n s leaves t c hs0 hc0 hmem hnd hn hsn
  have hent := canonical_entries_leaf n s leaves t c hmem hnd hn hsn
  have hsockent := canonical_entries_socket n s leaves hsn
  have hidxlen : (resourceIndex (canonicalTree n s leaves)).length = leaves.length + 2 := by
    rw [canonical_index]
    simp
  have hspn : socketsPerNode (canonicalTree n s leaves) = s := by
    have hcpn : countPerNode (canonicalTree n s leaves) "socket" none = some s :=
      countPerNode_of_single_entry (canonicalTree n s leaves) "socket"
        ⟨"socket", s, some "node"⟩ s hsockent rfl (Nat.pos_iff_ne_zero.mp hs0)
    unfold socketsPerNode
    rw [hcpn]
    simp [Nat.pos_iff_ne_zero.mp hs0]
  refine ⟨?_, hspn, ?_⟩
  · unfold countPerSocket
    rw [hent]
    rfl
  · rw [hspn]
    have hsockhead : (entriesOf (resourceIndex (canonicalTree n s leaves)) "socket").head? =
        some ⟨"socket", s, some "node"⟩ := by
      rw [hsockent]
      rfl
    have harith : (resourceIndex (canonicalTree n s leaves)).length + 1 =
        leaves.length + 1 + 2 := by
      rw [hidxlen]
    have hclimb : climbToNode (resourceIndex (canonicalTree n s leaves))
        ((resourceIndex (canonicalTree n s leaves)).length + 1) c (some "socket") =
        some (c * s) := by
      rw [harith]
      exact climb_through_socket _ s hsockhead (leaves.length + 1) c
    have hne : c * s ≠ 0 := Nat.mul_ne_zero (by omega) (by omega)
    exact countPerNode_of_single_entry (canonicalTree n s leaves) t
      ⟨t, c, some "socket"⟩ (c * s) hent hclimb hne

/-- Witness for C2 on node(1) -> socket(2) -> cpu(4):
`count_per_node(cpu) = 8 = 4 × 2`. -/
theorem count_per_node_socket_product_canonical_witness :
    countPerSocket (canonicalTree 1 2 [("cpu", 4)]) "cpu" none = some 4 ∧
    socketsPerNode (canonicalTree 1 2 [("cpu", 4)]) = 2 ∧
    countPerNode (canonicalTree 1 2 [("cpu", 4)]) "cpu" none =
      some (4 * socketsPerNode (canonicalTree 1 2 [("cpu", 4)])) :=
  count_per_node_socket_product_canonical 1 2 [("cpu", 4)] "cpu" 4
    (by decide) (by decide) (by decide) (by decide) (by decide) (by decide)

theorem dropWhile_head?_not {p : Char → Bool} :
    ∀ (l : List Char) (a : Char), (l.dropWhile p).head? = some a → p a = false := by
  intro l
  induction l with
  | nil => intro a h; simp at h
  | cons c rest ih =>
    intro a h
    by_cases hc : p c
    · rw [List.dropWhile_cons, if_pos hc] at h
      exact ih a h
    · rw [List.dropWhile_cons, if_neg hc] at h
      have : c = a := by simpa using h
      simpa [this] using hc

theorem rstripPlus_no_trailing (l : List Char) (a : Char)
    (h : (rstripPlus l).getLast? = some a) : a ≠ '+' := by
  unfold rstripPlus at h
  rw [List.getLast?_reverse] at h
  have := dropWhile_head?_not _ a h
  simpa using this

theorem parseAcctFields_state (fields : List (List Char)) (row : AcctRow)
    (h : parseAcctFields fields = some row) :
    ∃ w, row.state = ⟨rstripPlus w⟩ := by
  unfold parseAcctFields at h
  split at h
  · split at h
    · exact absurd h (by simp)
    · split at h
      · exact absurd h (by simp)
      · cases h
        exact ⟨_, rfl⟩
  · exact absurd h (by simp)

/-- C4: sacct row parsing — a trailing `+` on the state token is stripped
(the parsed state never ends in `+`); a parsed state of PENDING or RUNNING
makes `poll` report the job as not done; any other state sets the returncode
to `max(returncode_field, signal_field)`; in particular
`"12345|FAILED|137:9|"` yields returncode 137 and `"12345|COMPLETED+|0:0|"`
yields state `COMPLETED` with returncode 0. -/
theorem sacct_row_parsing :
    parseAcctLine "12345|COMPLETED+|0:0|" = some ⟨"12345", "COMPLETED", 0, 0⟩ ∧
    pollDecision ⟨"12345", "COMPLETED", 0, 0⟩ = some 0 ∧
    parseAcctLine "12345|FAILED|137:9|" = some ⟨"12345", "FAILED", 137, 9⟩ ∧
    pollDecision ⟨"12345", "FAILED", 137, 9⟩ = some 137 ∧
    (∀ (line : String) (row : AcctRow), parseAcctLine line = some row →
      ∀ a, row.state.data.getLast? = some a → a ≠ '+') ∧
    (∀ row : AcctRow,
      (String.mk (row.state.data.map Char.toUpper) = "PENDING" ∨
        String.mk (row.state.data.map Char.toUpper) = "RUNNING") →
      pollDecision row = none) ∧
    (∀ row : AcctRow,
      String.mk (row.state.data.map Char.toUpper) ≠ "PENDING" →
      String.mk (row.state.data.map Char.toUpper) ≠ "RUNNING" →
      pollDecision row = some (max row.returncode row.signal)) := by
  refine ⟨by decide, by decide, by decide, by decide, ?_, ?_, ?_⟩
  · intro line row h a ha
    obtain ⟨w, hw⟩ := parseAcctFields_state _ row h
    rw [hw] at ha
    exact rstripPlus_no_trailing w a ha
  · intro row h
    unfold pollDecision
    rw [if_pos h]
  · intro row h1 h2
    unfold pollDecision
    rw [if_neg (by simp [h1, h2])]

/-- Witness for C4: the trailing `+` of `COMPLETED+` is gone in the parsed
row, a `Pending` row is reported not done, and a `FAILED` row reports
`max(3, 9)`. -/
theorem sacct_row_parsing_witness :
    (('D' : Char) ≠ '+') ∧
    pollDecision ⟨"1", "Pending", 0, 0⟩ = none ∧
    pollDecision ⟨"1", "FAILED", 3, 9⟩ = some (max 3 9) :=
  ⟨sacct_row_parsing.2.2.2.2.1 "12345|COMPLETED+|0:0|" ⟨"12345", "COMPLETED", 0, 0⟩
      (by decide) 'D' (by decide),
   sacct_row_parsing.2.2.2.2.2.1 ⟨"1", "Pending", 0, 0⟩ (Or.inl (by decide)),
   sacct_row_parsing.2.2.2.2.2.2 ⟨"1", "FAILED", 3, 9⟩ (by decide) (by decide)⟩

theorem string_empty_append (s : String) : "" ++ s = s := by
  apply String.ext
  rw [String.data_append]
  rfl

theorem string_foldl_append (l : List String) :
    ∀ a : String, l.foldl (· ++ ·) a = a ++ l.foldl (· ++ ·) "" := by
  induction l with
  | nil => intro a; exact (String.append_empty a).symm
  | cons s t ih =>
    intro a
    rw [List.foldl_cons, List.foldl_cons, ih (a ++ s), ih ("" ++ s),
      string_empty_append, String.append_assoc]

theorem string_join_cons (s : String) (l : List String) :
    String.join (s :: l) = s ++ String.join l := by
  show (s :: l).foldl (· ++ ·) "" = s ++ l.foldl (· ++ ·) ""
  rw [List.foldl_cons, string_foldl_append, string_empty_append]

theorem string_join_append (l1 l2 : List String) :
    String.join (l1 ++ l2) = String.join l1 ++ String.join l2 := by
  induction l1 with
  | nil => rw [List.nil_append, show String.join [] = "" from rfl, string_empty_append]
  | cons s t ih =>
    rw [List.cons_append, string_join_cons, string_join_cons, ih, String.append_assoc]

theorem mpmdLine_empty_cfg (which : String → Bool)
    (expand : String → ResourceView → String) (view : ResourceView)
    (ranks : String) (spec : LaunchSpec) (hexp : ∀ a v, expand a v = a) :
    mpmdLine which expand srunCfgEmpty view ranks spec =
      ranks ++ String.join (spec.args.map (fun a => " " ++ a)) ++ "\n" := by
  unfold mpmdLine srunCfgEmpty
  simp only [hexp, List.map_nil, show String.join ([] : List String) = "" from rfl,
    String.append_empty]
  have hlp : (spec.partArgs which).1 ++ (spec.partArgs which).2 = spec.args := by
    unfold LaunchSpec.partArgs
    cases argpIdx which spec.args with
    | none => simp
    | some i => simp [List.take_append_drop]
  have hjoin : String.join ((spec.partArgs which).1.map (fun a => " " ++ a)) ++
      String.join ((spec.partArgs which).2.map (fun a => " " ++ a)) =
      String.join (spec.args.map (fun a => " " ++ a)) := by
    rw [← string_join_append, ← List.map_append, hlp]
  rw [String.append_assoc ranks, hjoin]

theorem joinMpmdGo_known (which : String → Bool)
    (expand : String → ResourceView → String) (rv : Option Int → ResourceView)
    (hexp : ∀ a v, expand a v = a) :
    ∀ (specs : List LaunchSpec) (np : Int) (acc : String),
      (∀ sp ∈ specs, ∃ p, sp.processes = some p ∧ 0 < p) →
      joinMpmdGo which expand rv srunCfgEmpty specs np acc =
        (np + specsTotal specs, acc ++ claimedMpmdText specs np) := by
  intro specs
  induction specs with
  | nil =>
    intro np acc _
    simp [joinMpmdGo, specsTotal, claimedMpmdText, String.append_empty]
  | cons sp rest ih =>
    intro np acc h
    obtain ⟨p, hp, hp0⟩ := h sp (by simp)
    have hrest : ∀ s2 ∈ rest, ∃ q, s2.processes = some q ∧ 0 < q :=
      fun s2 hs2 => h s2 (by simp [hs2])
    unfold joinMpmdGo
    rw [hp]
    dsimp only
    rw [if_pos (show p ≠ 0 by omega)]
    dsimp only
    rw [mpmdLine_empty_cfg which expand (rv (some p)) _ sp hexp]
    rw [ih (np + p) _ hrest]
    simp only [specsTotal, claimedMpmdText, hp, Option.getD_some]
    rw [Prod.ext_iff]
    constructor
    · dsimp only
      omega
    · dsimp only
      simp [String.append_assoc]

/-- C5 counterexample: for the claim's own two-segment example the emitted
command is as stated, but the text written to `launch-multi-prog.conf` is
`"0-3 ls\n4-8 ls -la\n"` — the loop writes a newline after every line, so the
file text is not the claimed `"0-3 ls\n4-8 ls -la"`. -/
theorem srun_mpmd_trailing_newline_counterexample :
    (joinMpmd whichLs expandId rvConst srunCfgEmpty "srun"
        [⟨["ls"], some 4⟩, ⟨["ls", "-la"], some 5⟩]).2 ≠ "0-3 ls\n4-8 ls -la" ∧
    joinMpmd whichLs expandId rvConst srunCfgEmpty "srun"
        [⟨["ls"], some 4⟩, ⟨["ls", "-la"], some 5⟩] =
      (["srun", "-n9", "--multi-prog", "launch-multi-prog.conf"],
        "0-3 ls\n4-8 ls -la\n") :=
  ⟨by decide, by decide⟩

/-- C5 amended: with the default (empty) option lists and tokens unaffected by
percent expansion, an MPMD launch whose segments have known positive process
counts writes one line per segment, `<a-b> <segment argv>` with consecutive
rank ranges partitioning `0..total-1` and a trailing newline per line, and
emits the command `[srun, -n<total>, --multi-prog, launch-multi-prog.conf]`;
for the two-segment example the command is exactly
`[srun, -n9, --multi-prog, launch-multi-prog.conf]` and the file text is
`"0-3 ls\n4-8 ls -la\n"`. -/
theorem srun_mpmd_emission :
    ∀ (which : String → Bool) (expand : String → ResourceView → String)
      (rv : Option Int → ResourceView) (exec : String) (specs : List LaunchSpec),
      (∀ a v, expand a v = a) →
      (∀ sp ∈ specs, ∃ p, sp.processes = some p ∧ 0 < p) →
      joinMpmd which expand rv srunCfgEmpty exec specs =
        ([exec, "-n" ++ toString (specsTotal specs), "--multi-prog",
            "launch-multi-prog.conf"],
          claimedMpmdText specs 0) := by
  intro which expand rv exec specs hexp h
  unfold joinMpmd
  rw [joinMpmdGo_known which expand rv hexp specs 0 "" h]
  dsimp only
  rw [string_empty_append]
  simp [srunCfgEmpty]

/-- Witness for C5 at the claim's concrete two-segment input. -/
theorem srun_mpmd_emission_witness :
    joinMpmd whichLs expandId rvConst srunCfgEmpty "srun"
        [⟨["ls"], some 4⟩, ⟨["ls", "-la"], some 5⟩] =
      (["srun", "-n" ++ toString (specsTotal [⟨["ls"], some 4⟩, ⟨["ls", "-la"], some 5⟩]),
          "--multi-prog", "launch-multi-prog.conf"],
        claimedMpmdText [⟨["ls"], some 4⟩, ⟨["ls", "-la"], some 5⟩] 0) :=
  srun_mpmd_emission whichLs expandId rvConst "srun"
    [⟨["ls"], some 4⟩, ⟨["ls", "-la"], some 5⟩] (fun _ _ => rfl)
    (by
      intro sp hsp
      rcases List.mem_cons.mp hsp with rfl | hsp2
      · exact ⟨4, rfl, by decide⟩
      · rcases List.mem_cons.mp hsp2 with rfl | h3
        · exact ⟨5, rfl, by decide⟩
        · cases h3)

theorem readEnvVar_skip {V : Type} (lm sl : String → V)
    (data : List (String × List (String × V))) (var val : String)
    (h : var.data.take 5 ≠ "HPCC_".data) :
    readEnvVar lm sl data var val = data := by
  unfold readEnvVar
  rw [if_pos h]

theorem env_foldl_filter {V : Type} (lm sl : String → V) :
    ∀ (env : List (String × String)) (data : List (String × List (String × V))),
      env.foldl (fun d p => readEnvVar lm sl d p.1 p.2) data =
      (env.filter (fun p => p.1.data.take 5 = "HPCC_".data)).foldl
        (fun d p => readEnvVar lm sl d p.1 p.2) data := by
  intro env
  induction env with
  | nil => intro data; rfl
  | cons a t ih =>
    intro data
    rw [List.foldl_cons, List.filter_cons]
    by_cases hp : a.1.data.take 5 = "HPCC_".data
    · rw [if_pos (decide_eq_true hp), List.foldl_cons]
      exact ih _
    · rw [if_neg (by simpa using hp), readEnvVar_skip lm sl data a.1 a.2 hp]
      exact ih _

/-- C7 counterexample: the claim's `HPC_CONNECT_<SECTION>_<KEY>` variables are
NOT read — with only `HPC_CONNECT_LAUNCH_EXEC` set no environment scope is
created at all, whereas the `HPCC_`-prefixed spelling of the same setting
is read into `launch:exec`. -/
theorem env_scope_hpc_connect_counterexample :
    readEnvConfig String id id [("HPC_CONNECT_LAUNCH_EXEC", "srun")] = none ∧
    readEnvConfig String id id [("HPCC_LAUNCH_EXEC", "srun")] =
      some [("launch", [("exec", "srun")])] :=
  ⟨by decide, by decide⟩

/-- C7 amended: the environment scope is populated exactly from the variables
prefixed `HPCC_` (all others, including `HPC_CONNECT_*`, are ignored); a
variable `HPCC_<SECTION>_<KEY>` for a known section lands at path
`section:key` with the remainder lowercased, the key's components re-joined
with underscores, and the value converted by `load_mappings` for the
`mappings` key and `safe_loads` otherwise. -/
theorem env_scope_hpcc_variables :
    (∀ (V : Type) (lm sl : String → V) (env : List (String × String)),
        readEnvConfig V lm sl env =
          readEnvConfig V lm sl
            (env.filter (fun p => p.1.data.take 5 = "HPCC_".data))) ∧
    (∀ (lm sl : String → String) (val : String),
        readEnvConfig String lm sl [("HPCC_LAUNCH_EXEC", val)] =
          some [("launch", [("exec", sl val)])] ∧
        readEnvConfig String lm sl [("HPCC_LAUNCH_NUMPROC_FLAG", val)] =
          some [("launch", [("numproc_flag", sl val)])] ∧
        readEnvConfig String lm sl [("HPCC_LAUNCH_MAPPINGS", val)] =
          some [("launch", [("mappings", lm val)])] ∧
        readEnvConfig String lm sl [("HPCC_SUBMIT_BACKEND", val)] =
          some [("submit", [("backend", sl val)])] ∧
        readEnvConfig String lm sl [("HPCC_CONFIG_DEBUG", val)] =
          some [("config", [("debug", sl val)])] ∧
        readEnvConfig String lm sl [("HPCC_MACHINE_RESOURCES", val)] =
          some [("machine", [("resources", sl val)])]) := by
  constructor
  · intro V lm sl env
    unfold readEnvConfig
    rw [env_foldl_filter]
  · intro lm sl val
    exact ⟨rfl, rfl, rfl, rfl, rfl, rfl⟩

theorem lookup_append_of_none {β : Type} :
    ∀ (l1 : List (String × β)) (l2 : List (String × β)) (k : String),
      l1.lookup k = none → (l1 ++ l2).lookup k = l2.lookup k := by
  intro l1
  induction l1 with
  | nil => intro l2 k _; rfl
  | cons a t ih =>
    intro l2 k h
    obtain ⟨k1, v1⟩ := a
    rw [List.cons_append, List.lookup_cons]
    rw [List.lookup_cons] at h
    cases hb : (k == k1) with
    | true => rw [hb] at h; exact absurd h (by simp)
    | false =>
      rw [hb] at h
      exact ih l2 k h

theorem mkArgumentParser_mappings (m : List (String × String)) (f : String)
    (hm : m.lookup "-n" = none) :
    (mkArgumentParser (some m) f).mappings = m ++ [("-n", f)] := by
  unfold mkArgumentParser
  simp [hm]

theorem mkArgumentParser_numproc (m : Option (List (String × String))) (f : String) :
    (mkArgumentParser m f).numproc_flag = f := rfl

theorem mkArgumentParser_idem (m : List (String × String)) (f : String)
    (hm : m.lookup "-n" = none) :
    mkArgumentParser (some m) f = mkArgumentParser (some (m ++ [("-n", f)])) f := by
  have h2 : (m ++ [("-n", f)]).lookup "-n" = some f := by
    rw [lookup_append_of_none m [("-n", f)] "-n" hm]
    rfl
  unfold mkArgumentParser
  simp [hm, h2]

theorem mapped_default_n (m : List (String × String)) (f : String)
    (hm : m.lookup "-n" = none) :
    mapped (mkArgumentParser (some m) f) "-n" = some f := by
  unfold mapped
  rw [mkArgumentParser_mappings m f hm, lookup_append_of_none m [("-n", f)] "-n" hm]
  rfl

theorem replaceCharsAux_no_dash (pt rp : List Char) :
    ∀ (fuel : Nat) (s : List Char), (∀ c ∈ s, c ≠ '-') →
      replaceCharsAux ('-' :: pt) rp fuel s = s := by
  intro fuel
  induction fuel with
  | zero => intro s _; rfl
  | succ n ih =>
    intro s hs
    unfold replaceCharsAux
    cases s with
    | nil => simp
    | cons c rest =>
      have hc : c ≠ '-' := hs c (by simp)
      have hbeq : ('-' == c) = false := beq_eq_false_iff_ne.mpr fun h => hc h.symm
      have hpre : (('-' :: pt).isPrefixOf (c :: rest)) = false := by
        simp [List.isPrefixOf, hbeq]
      rw [if_neg (by simp [hpre])]
      dsimp only
      rw [ih rest fun c2 hc2 => hs c2 (by simp [hc2])]

theorem pyReplace_dash_n (f ds : String) (hds : ds.data.all Char.isDigit = true) :
    pyReplace ("-n=" ++ ds) "-n" f = f ++ "=" ++ ds := by
  have hdata : ("-n=" ++ ds).data = '-' :: 'n' :: '=' :: ds.data := by
    rw [String.data_append]
    rfl
  apply String.ext
  show replaceCharsAux "-n".data f.data ("-n=" ++ ds).data.length ("-n=" ++ ds).data =
    (f ++ "=" ++ ds).data
  rw [hdata]
  show replaceCharsAux ['-', 'n'] f.data (ds.data.length + 3) ('-' :: 'n' :: '=' :: ds.data) =
    (f ++ "=" ++ ds).data
  show f.data ++ replaceCharsAux ['-', 'n'] f.data (ds.data.length + 2) ('=' :: ds.data) =
    (f ++ "=" ++ ds).data
  have hnd : ∀ c ∈ '=' :: ds.data, c ≠ '-' := by
    intro c hc
    rcases List.mem_cons.mp hc with rfl | hc2
    · decide
    · have := List.all_eq_true.mp hds c hc2
      intro he
      rw [he] at this
      exact absurd this (by decide)
  rw [replaceCharsAux_no_dash ['n'] f.data (ds.data.length + 2) ('=' :: ds.data) hnd]
  rw [String.data_append, String.data_append]
  simp

theorem keys_ne_of_lookup_none {β : Type} :
    ∀ (l : List (String × β)) (k : String), l.lookup k = none → ∀ p ∈ l, p.1 ≠ k := by
  intro l
  induction l with
  | nil => intro k _ p hp; cases hp
  | cons a t ih =>
    intro k h p hp
    obtain ⟨k1, v1⟩ := a
    rw [List.lookup_cons] at h
    cases hb : (k == k1) with
    | true => rw [hb] at h; exact absurd h (by simp)
    | false =>
      rw [hb] at h
      rcases List.mem_cons.mp hp with rfl | hp2
      · exact fun he => (beq_eq_false_iff_ne.mp hb) he.symm
      · exact ih k h p hp2

theorem patEq_not_prefix_dashn (q ds : String) (hq : q ≠ "-n")
    (hds : ds.data.all Char.isDigit = true) :
    ((q ++ "=").data.isPrefixOf ("-n=" ++ ds).data) = false := by
  rw [Bool.eq_false_iff]
  intro hp
  rw [List.isPrefixOf_iff_prefix] at hp
  obtain ⟨t, ht⟩ := hp
  rw [String.data_append, String.data_append] at ht
  have ht2 : (q.data ++ ['=']) ++ t = '-' :: 'n' :: '=' :: ds.data := ht
  cases hqd : q.data with
  | nil => rw [hqd] at ht2; simp at ht2
  | cons c1 r1 =>
    cases r1 with
    | nil =>
      rw [hqd] at ht2
      simp at ht2
    | cons c2 r2 =>
      cases r2 with
      | nil =>
        rw [hqd] at ht2
        simp at ht2
        apply hq
        apply String.ext
        rw [hqd, ht2.1, ht2.2.1]
      | cons c3 r3 =>
        rw [hqd] at ht2
        simp at ht2
        have hmem : '=' ∈ ds.data := by
          rw [← ht2.2.2.2]
          simp
        have := List.all_eq_true.mp hds '=' hmem
        exact absurd this (by decide)

theorem mapped_default_n_eq (m : List (String × String)) (f ds : String)
    (hm : m.lookup "-n" = none) (hm2 : m.lookup ("-n=" ++ ds) = none)
    (hds : ds.data.all Char.isDigit = true) :
    mapped (mkArgumentParser (some m) f) ("-n=" ++ ds) = some (f ++ "=" ++ ds) := by
  unfold mapped
  rw [mkArgumentParser_mappings m f hm]
  rw [lookup_append_of_none m _ _ hm2]
  have hne : ("-n=" ++ ds) ≠ "-n" := by
    intro h
    have hlen := congrArg (fun s => s.data.length) h
    simp [String.data_append] at hlen
  have hl2 : List.lookup ("-n=" ++ ds) [("-n", f)] = none := by
    rw [List.lookup_cons, show (("-n=" ++ ds) == "-n") = false from beq_eq_false_iff_ne.mpr hne]
    rfl
  rw [hl2, List.findSome?_append]
  have hnone : List.findSome?
      (fun q => if ((q.1 ++ "=").data.isPrefixOf ("-n=" ++ ds).data) then
        some (pyReplace ("-n=" ++ ds) q.1 q.2) else none) m = none :=
    List.findSome?_eq_none_iff.mpr fun q hq => by
      have hqn : q.1 ≠ "-n" := keys_ne_of_lookup_none m "-n" hm q hq
      rw [if_neg (by
        rw [show ((q.1 ++ "=").data.isPrefixOf ("-n=" ++ ds).data) = false from
          patEq_not_prefix_dashn q.1 ds hqn hds]
        simp)]
  rw [hnone]
  have hpre : (("-n" ++ "=").data.isPrefixOf ("-n=" ++ ds).data) = true := by
    rw [List.isPrefixOf_iff_prefix]
    refine ⟨ds.data, ?_⟩
    rw [String.data_append, String.data_append]
    rfl
  rw [List.findSome?_cons]
  rw [if_pos hpre]
  rw [pyReplace_dash_n f ds hds]
  rfl

theorem suppress_not_prefix_append (f ds : String) (hfs : f ≠ "SUPPRESS")
    (hfp : ("SUPPRESS=".data.isPrefixOf f.data) = false) :
    ("SUPPRESS=".data.isPrefixOf ((f ++ "=" ++ ds).data)) = false := by
  rw [Bool.eq_false_iff]
  intro hp
  rw [List.isPrefixOf_iff_prefix] at hp
  obtain ⟨t, ht⟩ := hp
  rw [String.data_append, String.data_append] at ht
  rw [List.append_assoc] at ht
  have ht2 : "SUPPRESS=".data ++ t = f.data ++ ('=' :: ds.data) := ht
  rcases List.append_eq_append_iff.mp ht2 with ⟨a, ha1, _⟩ | ⟨c2, ha1, ha2⟩
  · exact absurd (List.isPrefixOf_iff_prefix.mpr ⟨a, ha1.symm⟩) (by simp [hfp])
  · cases c2 with
    | nil =>
      rw [List.append_nil] at ha1
      rw [← ha1] at hfp
      rw [show ("SUPPRESS=".data.isPrefixOf "SUPPRESS=".data) = true from by decide] at hfp
      exact absurd hfp (by decide)
    | cons c c2 =>
      rw [List.cons_append] at ha2
      injection ha2 with hceq hds2
      subst hceq
      have hlen : ("SUPPRESS=".data).length = (f.data ++ '=' :: c2).length :=
        congrArg List.length ha1
      rw [show ("SUPPRESS=".data).length = 9 from rfl, List.length_append,
        List.length_cons] at hlen
      have hget : ("SUPPRESS=".data)[f.data.length]? = some '=' := by
        rw [ha1, List.getElem?_append, if_neg (by omega)]
        simp
      have h8 : f.data.length = 8 := by
        have hb : ∀ i, i < 9 → (("SUPPRESS=".data)[i]? = some '=') → i = 8 := by decide
        exact hb f.data.length (by omega) hget
      have hc2 : c2 = [] := List.length_eq_zero.mp (by omega)
      subst hc2
      have h9 : "SUPPRESS=".data = "SUPPRESS".data ++ ['='] := rfl
      rw [h9] at ha1
      have hfd : f.data = "SUPPRESS".data := (List.append_inj' ha1.symm rfl).1
      exact hfs (String.ext hfd)

theorem mapStep_use (p : ArgumentParser) (arg new : String)
    (hmap : mapped p arg = some new) (h0 : new ≠ "")
    (h1 : ("SUPPRESS=".data.isPrefixOf new.data) = false) (h2 : new ≠ "SUPPRESS") :
    mapStep p arg = .use new := by
  unfold mapStep
  rw [hmap]
  dsimp only
  rw [if_neg h0, if_neg (by rw [h1]; simp), if_neg h2]

theorem parseArgsGo_numproc_step (p : ArgumentParser) (which : String → Bool)
    (arg s : String) (rest spec : List String) (processes : Option Int)
    (acc : List LaunchSpec) (k : Int)
    (hw : which arg = false)
    (hstep : mapStep p arg = .use p.numproc_flag)
    (hk : parsePyInt s.data = some k) :
    parseArgsGo p which (arg :: s :: rest) spec processes false acc =
      parseArgsGo p which rest (spec ++ [p.numproc_flag, s]) (some k) false acc := by
  simp only [parseArgsGo, hw, hstep, hk, Bool.or_false, Bool.false_or]
  rw [if_neg (by simp), if_pos trivial]

theorem parseArgsGo_numproc_eq_step (p : ArgumentParser) (which : String → Bool)
    (arg j : String) (rest spec : List String) (processes : Option Int)
    (acc : List LaunchSpec) (k : Int)
    (hw : which arg = false)
    (hstep : mapStep p arg = .use j)
    (hjne : j ≠ p.numproc_flag)
    (hjpre : ((p.numproc_flag ++ "=").data.isPrefixOf j.data) = true)
    (hk : parsePyInt (j.data.drop (p.numproc_flag.length + 1)) = some k) :
    parseArgsGo p which (arg :: rest) spec processes false acc =
      parseArgsGo p which rest (spec ++ [j]) (some k) false acc := by
  cases rest with
  | nil =>
    simp only [parseArgsGo, hw, hstep, hjpre, hk, Bool.or_false, Bool.false_or]
    rw [if_neg (by simp), if_neg hjne, if_pos trivial]
  | cons r2 rest2 =>
    simp only [parseArgsGo, hw, hstep, hjpre, hk, Bool.or_false, Bool.false_or]
    rw [if_neg (by simp), if_neg hjne, if_pos trivial]

/-- C10: when the launcher mappings do not contain the key `-n`,
`ArgumentParser` behaves exactly as if `mappings["-n"] = numproc_flag` had
been configured (the constructor appends that entry); consequently, for every
configured `numproc_flag` f (not a `SUPPRESS` form) a pre-command token `-n`
together with its following integer, or `-n=<int>` (when no configured
mapping captures that exact token), is rewritten to f and records the
segment's process count. -/
theorem numproc_default_mapping :
    (∀ (m : List (String × String)) (f : String) (which : String → Bool)
        (args : List String),
        m.lookup "-n" = none →
        parseArgs (mkArgumentParser (some m) f) which args =
          parseArgs (mkArgumentParser (some (m ++ [("-n", f)])) f) which args) ∧
    (∀ (m : List (String × String)) (f s : String) (which : String → Bool)
        (rest spec : List String) (processes : Option Int) (acc : List LaunchSpec)
        (k : Int),
        m.lookup "-n" = none → f ≠ "" → f ≠ "SUPPRESS" →
        ("SUPPRESS=".data.isPrefixOf f.data) = false →
        which "-n" = false → parsePyInt s.data = some k →
        parseArgsGo (mkArgumentParser (some m) f) which ("-n" :: s :: rest)
            spec processes false acc =
          parseArgsGo (mkArgumentParser (some m) f) which rest
            (spec ++ [f, s]) (some k) false acc) ∧
    (∀ (m : List (String × String)) (f ds : String) (which : String → Bool)
        (rest spec : List String) (processes : Option Int) (acc : List LaunchSpec)
        (k : Int),
        m.lookup "-n" = none → m.lookup ("-n=" ++ ds) = none →
        f ≠ "" → f ≠ "SUPPRESS" → ("SUPPRESS=".data.isPrefixOf f.data) = false →
        which ("-n=" ++ ds) = false → ds.data.all Char.isDigit = true →
        parsePyInt ds.data = some k →
        parseArgsGo (mkArgumentParser (some m) f) which (("-n=" ++ ds) :: rest)
            spec processes false acc =
          parseArgsGo (mkArgumentParser (some m) f) which rest
            (spec ++ [f ++ "=" ++ ds]) (some k) false acc) := by
  refine ⟨?_, ?_, ?_⟩
  · intro m f which args hm
    rw [mkArgumentParser_idem m f hm]
  · intro m f s which rest spec processes acc k hm hf0 hfs hfp hw hk
    have hstep : mapStep (mkArgumentParser (some m) f) "-n" =
        .use (mkArgumentParser (some m) f).numproc_flag :=
      mapStep_use (mkArgumentParser (some m) f) "-n" f
        (mapped_default_n m f hm) hf0 hfp hfs
    exact parseArgsGo_numproc_step (mkArgumentParser (some m) f) which "-n" s rest
      spec processes acc k hw hstep hk
  · intro m f ds which rest spec processes acc k hm hm2 hf0 hfs hfp hw hds hk
    have hdata3 : (f ++ "=" ++ ds).data = f.data ++ '=' :: ds.data := by
      rw [String.data_append, String.data_append, List.append_assoc]
      rfl
    have h0 : (f ++ "=" ++ ds) ≠ "" := by
      intro h
      have h2 := congrArg String.data h
      rw [hdata3] at h2
      simp at h2
    have h2 : (f ++ "=" ++ ds) ≠ "SUPPRESS" := by
      intro h
      have h3 := congrArg String.data h
      rw [hdata3] at h3
      have hmem : '=' ∈ "SUPPRESS".data := by
        rw [← h3]
        simp
      exact absurd hmem (by decide)
    have hstep : mapStep (mkArgumentParser (some m) f) ("-n=" ++ ds) =
        .use (f ++ "=" ++ ds) :=
      mapStep_use (mkArgumentParser (some m) f) ("-n=" ++ ds) (f ++ "=" ++ ds)
        (mapped_default_n_eq m f ds hm hm2 hds) h0
        (suppress_not_prefix_append f ds hfs hfp) h2
    have hjne : (f ++ "=" ++ ds) ≠ (mkArgumentParser (some m) f).numproc_flag := by
      rw [mkArgumentParser_numproc]
      intro h
      have h3 : (f ++ "=" ++ ds).data.length = f.data.length := by rw [h]
      rw [hdata3] at h3
      simp at h3
    have hjpre : (((mkArgumentParser (some m) f).numproc_flag ++ "=").data.isPrefixOf
        (f ++ "=" ++ ds).data) = true := by
      rw [mkArgumentParser_numproc, List.isPrefixOf_iff_prefix]
      exact ⟨ds.data, (String.data_append (f ++ "=") ds).symm⟩
    have hdrop : (f ++ "=" ++ ds).data.drop
        ((mkArgumentParser (some m) f).numproc_flag.length + 1) = ds.data := by
      rw [mkArgumentParser_numproc]
      have he : (f ++ "=" ++ ds).data = (f.data ++ ['=']) ++ ds.data := by
        rw [hdata3, List.append_assoc]
        rfl
      rw [he, show f.length + 1 = (f.data ++ ['=']).length from by
        rw [List.length_append]
        rfl]
      exact List.drop_left _ _
    have hk2 : parsePyInt ((f ++ "=" ++ ds).data.drop
        ((mkArgumentParser (some m) f).numproc_flag.length + 1)) = some k := by
      rw [hdrop]
      exact hk
    exact parseArgsGo_numproc_eq_step (mkArgumentParser (some m) f) which
      ("-n=" ++ ds) (f ++ "=" ++ ds) rest spec processes acc k hw hstep hjne hjpre hk2

/-- Witness for C10: with no configured mappings and `numproc_flag = -np`,
`-n 4` and `-n=7` before the command are rewritten to the `-np` spelling and
record the process count. -/
theorem numproc_default_mapping_witness :
    (parseArgs (mkArgumentParser (some []) "-np") whichLs ["-n", "4", "ls"] =
      parseArgs (mkArgumentParser (some ([] ++ [("-n", "-np")])) "-np") whichLs
        ["-n", "4", "ls"]) ∧
    (parseArgsGo (mkArgumentParser (some []) "-np") whichLs ("-n" :: "4" :: ["ls"])
        [] none false [] =
      parseArgsGo (mkArgumentParser (some []) "-np") whichLs ["ls"]
        ([] ++ ["-np", "4"]) (some 4) false []) ∧
    (parseArgsGo (mkArgumentParser (some []) "-np") whichLs (("-n=" ++ "7") :: ["ls"])
        [] none false [] =
      parseArgsGo (mkArgumentParser (some []) "-np") whichLs ["ls"]
        ([] ++ ["-np" ++ "=" ++ "7"]) (some 7) false []) :=
  ⟨numproc_default_mapping.1 [] "-np" whichLs ["-n", "4", "ls"] rfl,
   numproc_default_mapping.2.1 [] "-np" "4" whichLs ["ls"] [] none [] 4
     rfl (by decide) (by decide) (by decide) (by decide) (by decide),
   numproc_default_mapping.2.2 [] "-np" "7" whichLs ["ls"] [] none [] 7
     rfl rfl (by decide) (by decide) (by decide) (by decide) (by decide) (by decide)⟩
